import Mathlib

/-!
Verification of the dy-sql query utilities (src/dysql/query_utils.py) and of the
row-folding mapper described by the specification.

The Python code is shallowly embedded: Python values that flow through the query
utilities are modelled by `PyVal` (scalars, plus lists/tuples whose elements are
scalars or tuples of scalars, which covers the types declared by the source:
`Union[str, Iterable[str]]` and sequences of tuples); Python dicts are modelled
as association lists in insertion order with `dictSet`/`dictUpdate` mirroring
`dict.__setitem__`/`dict.update`; `str.replace`, `str.split`, `str.startswith`
and `str(int)` are re-implemented over `List Char`; the regular-expression scan
`re.findall(LIST_TEMPLATE_REGEX, query)` is re-implemented as an explicit
scanner with the same leftmost, non-overlapping, greedy semantics (the three
keyword alternatives are distinguished by their first character, so no
backtracking across alternatives can occur); raising an exception is modelled
with `Except`.
-/

namespace DySql

/-- Scalar Python values appearing in queries and rows. -/
inductive Scalar where
  | str (s : String)
  | int (n : Int)
  | bool (b : Bool)
  | none
deriving DecidableEq, Repr

/-- Elements of a Python sequence passed to the templates: a scalar or a tuple
of scalars (the depth the source's declared types allow). -/
inductive PyElem where
  | sc (v : Scalar)
  | tup (vs : List Scalar)
deriving DecidableEq, Repr

/-- A Python value passed as a template parameter or stored as a binding:
a scalar, or a list/tuple (`isTuple` distinguishes the two) of elements. -/
inductive PyVal where
  | sc (v : Scalar)
  | seq (isTuple : Bool) (vs : List PyElem)
deriving DecidableEq, Repr

/-- Reinjection of a sequence element into `PyVal` (a tuple element becomes a
Python tuple value). -/
def PyElem.toVal : PyElem → PyVal
  | .sc v => .sc v
  | .tup vs => .seq true (vs.map PyElem.sc)

/-- Python truthiness of a scalar. -/
def Scalar.truthy : Scalar → Bool
  | .str s => !(s == "")
  | .int n => !(n == 0)
  | .bool b => b
  | .none => false

/-- Python truthiness of a value (`if not values:` in the source). -/
def PyVal.truthy : PyVal → Bool
  | .sc v => v.truthy
  | .seq _ vs => !vs.isEmpty

/-- Python `len` where defined (`None` models `TypeError`). -/
def PyVal.pyLen : PyVal → Option Nat
  | .sc (.str s) => some s.length
  | .sc _ => Option.none
  | .seq _ vs => some vs.length

/-- Association-list read, i.e. Python `d.get(k)` / `d[k]` lookup. -/
def alGet {κ β : Type} [BEq κ] (d : List (κ × β)) (k : κ) : Option β :=
  (d.find? (fun p => p.1 == k)).map (fun p => p.2)

/-- Python `d[k] = v`: overwrite in place if the key exists (keeping insertion
order), otherwise append. -/
def alSet {κ β : Type} [BEq κ] : List (κ × β) → κ → β → List (κ × β)
  | [], k, v => [(k, v)]
  | p :: rest, k, v =>
    if p.1 == k then (k, v) :: rest else p :: alSet rest k v

/-- Python `d.update(e)`: set every key/value pair of `e` in order. -/
def alUpdate {κ β : Type} [BEq κ] (d e : List (κ × β)) : List (κ × β) :=
  e.foldl (fun acc p => alSet acc p.1 p.2) d

/-- The parameter dictionaries built by the query utilities. -/
abbrev Params := List (String × PyVal)

/-- The exceptions the embedded code can raise. -/
inductive PyErr where
  | listTemplate (msg : String)
  | queryData (msg : String)
  | typeError
  | keyError (k : String)
  | valueError
deriving DecidableEq, Repr

/-- Decimal digits of a positive number, most significant first (fuelled,
`fuel ≥ n` suffices). -/
def natToStrAux : Nat → Nat → List Char
  | 0, _ => []
  | _+1, 0 => []
  | f+1, n+1 => natToStrAux f ((n+1) / 10) ++ [Nat.digitChar ((n+1) % 10)]

/-- Python `str(n)` for a natural number. -/
def natToStr (n : Nat) : String :=
  if n = 0 then "0" else ⟨natToStrAux n n⟩

/-- Python `key.replace(Chr(46), Chr(95))`, i.e. each dot becomes an
underscore. -/
def dotToUnderscore (s : String) : String :=
  ⟨s.data.map (fun c => if c = '.' then '_' else c)⟩

/-- Python `sep.join(parts)`. -/
def strJoin (sep : String) : List String → String
  | [] => ""
  | [s] => s
  | s :: s₂ :: rest => s ++ sep ++ strJoin sep (s₂ :: rest)

/-- Python `s.startswith(pre)`. -/
def pyStartsWith (s pre : String) : Bool :=
  pre.data.isPrefixOf s.data

/-- Replace every (leftmost, non-overlapping) occurrence of `pat`, fuelled. -/
def replaceAux (pat rep : List Char) : Nat → List Char → List Char
  | 0, cs => cs
  | _+1, [] => []
  | f+1, c :: cs =>
    if pat.isPrefixOf (c :: cs) then
      rep ++ replaceAux pat rep f ((c :: cs).drop pat.length)
    else c :: replaceAux pat rep f cs

/-- Python `s.replace(pat, rep)` (all occurrences, left to right). -/
def pyReplace (s pat rep : String) : String :=
  ⟨replaceAux pat.data rep.data (s.data.length + 1) s.data⟩

/-- Splitting worker for `pySplit`, fuelled; `cur` holds the current piece
reversed. -/
def splitAux (pat : List Char) : Nat → List Char → List Char → List (List Char)
  | 0, cs, cur => [cur.reverse ++ cs]
  | _+1, [], cur => [cur.reverse]
  | f+1, c :: cs, cur =>
    if pat.isPrefixOf (c :: cs) then
      cur.reverse :: splitAux pat f ((c :: cs).drop pat.length) []
    else splitAux pat f cs (c :: cur)

/-- Python `s.split(pat)` for a non-empty separator. -/
def pySplit (s pat : String) : List String :=
  (splitAux pat.data (s.data.length + 1) s.data []).map (fun l => ⟨l⟩)

/-- A single quote character, used by the Python `repr` of strings. -/
def sq : String := ⟨[Char.ofNat 39]⟩

/-- Python `repr` of a simple string (single-quoted). -/
def pyReprStr (s : String) : String := sq ++ s ++ sq

/-- Python `str` of a list of strings, as produced by
`format(missing_keys)`. -/
def formatStrList (l : List String) : String :=
  "[" ++ strJoin ", " (l.map pyReprStr) ++ "]"

namespace Templates

/-- Embedding of `Templates._parameterize_inner_list`: a sequence gets one
binding per element named `key_i` with dots of `key` rewritten to
underscores; a non-sequence gets a single binding under `key` itself. -/
def parameterize_inner_list (key : String) (values : PyVal) : String × Params :=
  match values with
  | .seq _ vs =>
    let entries := vs.enum.map
      (fun p => (dotToUnderscore key ++ "_" ++ natToStr p.1, p.2.toVal))
    ("( :" ++ strJoin ", :" (entries.map (fun e => e.1)) ++ " )", entries)
  | v => ("( :" ++ key ++ " )", [(key, v)])

/-- Loop of `Templates._parameterize_list`: tuple elements (or any element
under a `values`-prefixed key) are expanded as their own group under the
derived key `key_i`; the first other element returns the inner-list expansion
of the whole sequence. -/
def plAux (key : String) (whole : PyVal) :
    List PyElem → Nat → List String → Params → String × Params
  | [], _, innerKeys, pvals => (strJoin ", " innerKeys, pvals)
  | v :: rest, i, innerKeys, pvals =>
    if (match v with | .tup _ => true | .sc _ => false)
        || pyStartsWith key "values" then
      let r := parameterize_inner_list (key ++ "_" ++ natToStr i) v.toVal
      plAux key whole rest (i + 1) (innerKeys ++ [r.1]) (alUpdate pvals r.2)
    else
      parameterize_inner_list key whole

/-- Embedding of `Templates._parameterize_list`: a lone string is first
wrapped into a one-element tuple; iterating a non-sequence raises
`TypeError`. -/
def parameterize_list (key : String) (values : PyVal) :
    Except PyErr (String × Params) :=
  let values' := match values with
    | .sc (.str s) => PyVal.seq true [.sc (.str s)]
    | v => v
  match values' with
  | .seq b vs => .ok (plAux key (.seq b vs) vs 0 [] [])
  | _ => .error .typeError

/-- Python `if legacy_key:` / `key_name = legacy_key`. -/
def keyNameOf (name : String) : Option String → String
  | some lk => if lk == "" then name else lk
  | Option.none => name

/-- Embedding of `Templates.in_column`. -/
def in_column (name : String) (values : PyVal) (legacy_key : Option String) :
    Except PyErr (String × Option Params) :=
  if !values.truthy then .ok ("1 <> 1", Option.none)
  else
    match parameterize_list (keyNameOf name legacy_key) values with
    | .ok (keys, vals) => .ok (name ++ " IN " ++ keys, some vals)
    | .error e => .error e

/-- Embedding of `Templates.not_in_column`. -/
def not_in_column (name : String) (values : PyVal) (legacy_key : Option String) :
    Except PyErr (String × Option Params) :=
  if !values.truthy then .ok ("1 = 1", Option.none)
  else
    match parameterize_list (keyNameOf name legacy_key) values with
    | .ok (keys, vals) => .ok (name ++ " NOT IN " ++ keys, some vals)
    | .error e => .error e

/-- Embedding of `Templates.values`. -/
def values (name : String) (vals : PyVal) (legacy_key : Option String) :
    Except PyErr (String × Option Params) :=
  if !vals.truthy then
    .error (.listTemplate ("Must have values for " ++ name ++ " template"))
  else
    match parameterize_list (keyNameOf name legacy_key) vals with
    | .ok (keys, vs) => .ok ("VALUES " ++ keys, some vs)
    | .error e => .error e

/-- Embedding of `Templates.get_template`. -/
def get_template (name : String) :
    Option (String → PyVal → Option String → Except PyErr (String × Option Params)) :=
  if name == "in" then some in_column
  else if name == "not_in" then some not_in_column
  else if name == "values" then some values
  else Option.none

end Templates

/-- A character matched by the regex classes `[A-Za-z_]`. -/
def isIdentChar (c : Char) : Bool := c.isAlpha || c == '_'

/-- One match of `LIST_TEMPLATE_REGEX`: the captured spaces before and after,
the keyword, the optional `table.` qualifier (dot included, empty when
absent), and the column. -/
structure TMatch where
  sp1 : List Char
  keyword : List Char
  table : List Char
  column : List Char
  sp2 : List Char
deriving DecidableEq, Repr

/-- The matched text without the surrounding spaces (what `groups[0].strip()`
yields). -/
def TMatch.core (m : TMatch) : List Char :=
  '{' :: (m.keyword ++ ['_', '_'] ++ m.table ++ m.column ++ ['}'])

/-- The full matched text, group 1 of the regex (`groups[0]` in the
source). -/
def TMatch.fullMatch (m : TMatch) : List Char :=
  m.sp1 ++ m.core ++ m.sp2

/-- The canonical key derived from a match in
`__validate_keys_clean_query`. -/
def TMatch.key (m : TMatch) : String :=
  ⟨m.keyword ++ ['_', '_'] ++ m.table ++ m.column⟩

/-- The keyword alternation `(in|not_in|values)`; the alternatives start with
distinct characters, so first-match order equals the regex order. -/
def matchKeyword (cs : List Char) : Option (List Char × List Char) :=
  if "in".data.isPrefixOf cs then some ("in".data, cs.drop 2)
  else if "not_in".data.isPrefixOf cs then some ("not_in".data, cs.drop 6)
  else if "values".data.isPrefixOf cs then some ("values".data, cs.drop 6)
  else Option.none

/-- The part `([A-Za-z_]+\.)?([A-Za-z_]+)}` of the regex; returns the table
group (dot included), the column group and the rest after the brace. -/
def matchBody (cs : List Char) : Option (List Char × List Char × List Char) :=
  let r1 := cs.takeWhile isIdentChar
  let rest := cs.dropWhile isIdentChar
  if r1.isEmpty then Option.none
  else
    match rest with
    | '.' :: rest2 =>
      let r2 := rest2.takeWhile isIdentChar
      let rest3 := rest2.dropWhile isIdentChar
      if r2.isEmpty then Option.none
      else
        match rest3 with
        | '}' :: rest4 => some (r1 ++ ['.'], r2, rest4)
        | _ => Option.none
    | '}' :: rest2 => some ([], r1, rest2)
    | _ => Option.none

/-- Try to match the whole regex at the start of `cs`; on success return the
match and the remaining input (the trailing spaces are consumed greedily, as
the regex does). -/
def matchAt (cs : List Char) : Option (TMatch × List Char) :=
  let sp1 := cs.takeWhile (fun c => c == ' ')
  match cs.dropWhile (fun c => c == ' ') with
  | '{' :: r2 =>
    match matchKeyword r2 with
    | some (kw, r3) =>
      match r3 with
      | '_' :: '_' :: r4 =>
        match matchBody r4 with
        | some (tab, col, r5) =>
          some ({ sp1 := sp1, keyword := kw, table := tab, column := col,
                  sp2 := r5.takeWhile (fun c => c == ' ') },
                r5.dropWhile (fun c => c == ' '))
        | Option.none => Option.none
      | _ => Option.none
    | Option.none => Option.none
  | _ => Option.none

/-- Scan for all leftmost non-overlapping matches; on failure the start
position advances by one character, as `re.findall` does.  A successful match
always consumes at least one character, so `fuel = length + 1` never runs
out. -/
def scanAux : Nat → List Char → List TMatch
  | 0, _ => []
  | _+1, [] => []
  | f+1, c :: cs =>
    match matchAt (c :: cs) with
    | some (m, rest) => m :: scanAux f rest
    | Option.none => scanAux f cs

/-- Embedding of `re.findall(LIST_TEMPLATE_REGEX, query)`. -/
def scanTemplates (s : String) : List TMatch :=
  scanAux (s.data.length + 1) s.data

/-- The per-iteration `missing_keys` computation of
`__validate_keys_clean_query`: the key is missing when `template_params` is
`None`, when `template_params.get(key)` is `None` (absent key or stored
`None`), or — via a branch that compares the full key with the literal
string `values` — when `len` of the value is zero. -/
def checkMissing (tp : Option Params) (key : String) :
    Except PyErr (List String) :=
  match tp with
  | Option.none => .ok [key]
  | some d =>
    match alGet d key with
    | Option.none => .ok [key]
    | some v =>
      if v = PyVal.sc Scalar.none then .ok [key]
      else if key == "values" then
        match v.pyLen with
        | some n => .ok (if n = 0 then [key] else [])
        | Option.none => .error .typeError
      else .ok []

/-- Loop of `__validate_keys_clean_query` over the matches found in the
original query: raise as soon as one iteration's `missing_keys` is
non-empty, otherwise strip the captured spaces from every occurrence of the
matched text. -/
def vkAux (tp : Option Params) :
    List TMatch → String → List String → Except PyErr (String × List String)
  | [], q, acc => .ok (q, acc)
  | m :: ms, q, acc =>
    match checkMissing tp m.key with
    | .error e => .error e
    | .ok missing =>
      if missing.isEmpty then
        vkAux tp ms (pyReplace q ⟨m.fullMatch⟩ ⟨m.core⟩) (acc ++ [m.key])
      else
        .error (.listTemplate ("Missing template keys " ++ formatStrList missing))

/-- Embedding of `__validate_keys_clean_query`. -/
def validate_keys_clean_query (query : String) (template_params : Option Params) :
    Except PyErr (String × List String) :=
  vkAux template_params (scanTemplates query) query []

/-- Embedding of `QueryData` (the single-mapping form of `query_params`,
which is the one `get_query_data` merges). -/
structure QueryData where
  query : String
  query_params : Option Params
  template_params : Option Params
deriving DecidableEq, Repr

/-- Python `data.template_params[key]` (`None[key]` raises `TypeError`, a
missing key raises `KeyError`). -/
def tpLookup (tp : Option Params) (key : String) : Except PyErr PyVal :=
  match tp with
  | Option.none => .error .typeError
  | some d =>
    match alGet d key with
    | some v => .ok v
    | Option.none => .error (.keyError key)

/-- One iteration of the substitution loop of `get_query_data`: split the key
on double underscores into keyword and column (a `tuple` unpacking that
raises `ValueError` on any other arity), render the template with the
original key as `legacy_key`, merge its bindings if truthy, and replace every
occurrence of the braced key by the fragment padded with one space on each
side. -/
def substStep (tp : Option Params) (key : String) (q : String) (params : Params) :
    Except PyErr (String × Params) :=
  match pySplit key "__" with
  | [ltk, column_name] =>
    match Templates.get_template ltk with
    | some tmpl =>
      match tpLookup tp key with
      | .error e => .error e
      | .ok v =>
        match tmpl column_name v (some key) with
        | .error e => .error e
        | .ok (template_query, param_dict) =>
          let params' := match param_dict with
            | some d => if d.isEmpty then params else alUpdate params d
            | Option.none => params
          .ok (pyReplace q ("\x7b" ++ key ++ "\x7d")
                 (" " ++ template_query ++ " "), params')
    | Option.none => .error .typeError
  | _ => .error .valueError

/-- The substitution loop of `get_query_data` over the validated keys. -/
def substLoop (tp : Option Params) :
    List String → String → Params → Except PyErr (String × Params)
  | [], q, params => .ok (q, params)
  | k :: ks, q, params =>
    match substStep tp k q params with
    | .error e => .error e
    | .ok (q', p') => substLoop tp ks q' p'

/-- Seeding of `params` in `get_query_data`: start from an empty dict and
`update` it with `query_params` when the latter is truthy. -/
def initialParams (qp : Option Params) : Params :=
  match qp with
  | some q => if q.isEmpty then [] else alUpdate [] q
  | Option.none => []

/-- Embedding of `get_query_data`: validate and clean the query, seed the
parameters from a truthy `query_params`, then run the substitution loop.
The `isinstance(data, QueryData)` guard of `__validate_query_and_params`
always passes in this typed embedding. -/
def get_query_data (data : QueryData) : Except PyErr (String × Params) :=
  match validate_keys_clean_query data.query data.template_params with
  | .error e => .error e
  | .ok (query1, vkeys) =>
    substLoop data.template_params vkeys query1 (initialParams data.query_params)

/-- Statement-level state-passing version of `get_query_data`: the input
`QueryData` is threaded through and returned.  The source assigns to no
attribute of `data` (it only reads `data.query`, `data.query_params` and
`data.template_params`, and `dict.update` is applied to a freshly created
dict), so the threaded state is returned unchanged. -/
def get_query_data_st (data : QueryData) :
    Except PyErr ((String × Params) × QueryData) :=
  match validate_keys_clean_query data.query data.template_params with
  | .error e => .error e
  | .ok (query1, vkeys) =>
    match substLoop data.template_params vkeys query1
        (initialParams data.query_params) with
    | .error e => .error e
    | .ok r => .ok (r, data)

/-! The Row-Folding Mapper.  Its implementation is not part of the sources
given here (only its tests are), so it is modelled from the specification:
raw rows are mappings from column name to scalar; a record schema declares
identity field(s), scalar fields, list fields (append the raw value per
row), set fields (insert with deduplication), CSV-list fields (split the
string column on commas and append the tokens; the element coercion is
delegated to the external typed-record collaborator and modelled as the
identity on tokens), and dict directives (a key-source and a value-source
column combined into one entry per row, later rows overwriting).  The
combining mapper partitions rows by identity, folds each partition in row
order, and returns records in first-seen order. -/

/-- Modelled from the spec: a raw row, a mapping from column name to
scalar. -/
abbrev Row := List (String × Scalar)

/-- Modelled from the spec: the record schema consumed by the mapper —
identity field name(s), scalar fields, list/set/CSV-list field sets, and
dict directives `(directive name, key-source column, value-source
column)`. -/
structure MapperSchema where
  idFields : List String
  scalarFields : List String
  listFields : List String
  setFields : List String
  csvFields : List String
  dictDirectives : List (String × String × String)
deriving DecidableEq, Repr

/-- Modelled from the spec: a folded record — the identity value, the scalar
fields, and the accumulated list/set/CSV/dict fields (a set is kept as a
list without duplicates; each dict keeps its key/value source columns
alongside its entries). -/
structure FoldedRecord where
  idv : List (Option Scalar)
  scalars : List (String × Scalar)
  lists : List (String × List Scalar)
  sets : List (String × List Scalar)
  csvs : List (String × List Scalar)
  dicts : List (String × String × String × List (Scalar × Scalar))
deriving DecidableEq, Repr

/-- Column read from a raw row. -/
def rowGet (row : Row) (c : String) : Option Scalar := alGet row c

/-- Modelled from the spec: the identity of a row, the tuple of its values
at the schema identity field(s). -/
def identityOf (s : MapperSchema) (row : Row) : List (Option Scalar) :=
  s.idFields.map (rowGet row)

/-- Modelled from the spec: the record built from the first row of a
partition — scalar fields read from the row, every directive field
initialized to its empty container. -/
def initRecord (s : MapperSchema) (row : Row) : FoldedRecord where
  idv := identityOf s row
  scalars := s.scalarFields.filterMap (fun f => (rowGet row f).map (fun v => (f, v)))
  lists := s.listFields.map (fun f => (f, []))
  sets := s.setFields.map (fun f => (f, []))
  csvs := s.csvFields.map (fun f => (f, []))
  dicts := s.dictDirectives.map (fun d => (d.1, d.2.1, d.2.2, []))

/-- Modelled from the spec: folding one row into a record — append to list
fields, insert with deduplication into set fields, split-and-append for
CSV-list fields, overwrite-per-key for dict directives; a row without the
source column contributes nothing to that field. -/
def foldRow (s : MapperSchema) (r : FoldedRecord) (row : Row) : FoldedRecord where
  idv := r.idv
  scalars := r.scalars
  lists := r.lists.map (fun fl =>
    match rowGet row fl.1 with
    | some v => (fl.1, fl.2 ++ [v])
    | Option.none => fl)
  sets := r.sets.map (fun fl =>
    match rowGet row fl.1 with
    | some v => (fl.1, if v ∈ fl.2 then fl.2 else fl.2 ++ [v])
    | Option.none => fl)
  csvs := r.csvs.map (fun fl =>
    match rowGet row fl.1 with
    | some (.str sv) => (fl.1, fl.2 ++ (pySplit sv ",").map Scalar.str)
    | _ => fl)
  dicts := r.dicts.map (fun dd =>
    match rowGet row dd.2.1, rowGet row dd.2.2.1 with
    | some kv, some vv => (dd.1, dd.2.1, dd.2.2.1, alSet dd.2.2.2 kv vv)
    | _, _ => dd)

/-- Folding a run of rows into a record, in row order. -/
def foldRows (s : MapperSchema) (r : FoldedRecord) (rows : List Row) : FoldedRecord :=
  rows.foldl (foldRow s) r

/-- Modelled from the spec: one step of the combining mapper — fold the row
into the record with the same identity if one exists, otherwise start a new
record at the end (first-seen order). -/
def insertRow (s : MapperSchema) (recs : List FoldedRecord) (row : Row) :
    List FoldedRecord :=
  if recs.any (fun r => r.idv == identityOf s row) then
    recs.map (fun r => if r.idv == identityOf s row then foldRow s r row else r)
  else recs ++ [foldRow s (initRecord s row) row]

/-- Modelled from the spec: the combining mapper
(`RecordCombiningMapper.map_records`), a single pass over the rows. -/
def mapRecords (s : MapperSchema) (rows : List Row) : List FoldedRecord :=
  rows.foldl (insertRow s) []

/-- The distinct row identities in first-seen order. -/
def firstSeenIds (s : MapperSchema) : List Row → List (List (Option Scalar))
  | [] => []
  | r :: rs =>
    identityOf s r ::
      (firstSeenIds s rs).filter (fun j => !(j == identityOf s r))

/-- The record obtained by folding, from scratch, exactly the rows of one
identity partition, in row order. -/
def partitionFold (s : MapperSchema) (rows : List Row)
    (i : List (Option Scalar)) : FoldedRecord :=
  match rows.filter (fun row => identityOf s row == i) with
  | [] => initRecord s []
  | r :: rs => foldRows s (foldRow s (initRecord s r) r) rs

/-- The keys of an association list. -/
def keysOf {κ β : Type} (d : List (κ × β)) : List κ := d.map Prod.fst

/-- Value of a decimal digit string (base-10 left fold). -/
def digitsVal (l : List Char) : Nat :=
  l.foldl (fun acc c => 10 * acc + (c.toNat - 48)) 0

/-- A trivial `QueryData` used to instantiate the frame theorem. -/
def qdFrame : QueryData := ⟨"SELECT 1", Option.none, Option.none⟩

/-- Schema of the doubling example: identity `id`, one list field, one set
field and two CSV-list fields (the shape of the combining tests). -/
def sDouble : MapperSchema :=
  ⟨["id"], ["id"], ["l1"], ["set1"], ["list1", "list2"], []⟩

/-- The row of the doubling example. -/
def rowDouble : Row :=
  [("id", .int 1), ("l1", .str "x"), ("set1", .str "s"),
   ("list1", .str "a,b,c,d"), ("list2", .str "1,2,3,4")]

/-- The record expected from folding `rowDouble` twice: list and CSV fields
doubled, the set field deduplicated. -/
def recDouble : FoldedRecord :=
  { idv := [some (.int 1)]
    scalars := [("id", .int 1)]
    lists := [("l1", [.str "x", .str "x"])]
    sets := [("set1", [.str "s"])]
    csvs := [("list1", [.str "a", .str "b", .str "c", .str "d",
                        .str "a", .str "b", .str "c", .str "d"]),
             ("list2", [.str "1", .str "2", .str "3", .str "4",
                        .str "1", .str "2", .str "3", .str "4"])]
    dicts := [] }

/-! Association-list (Python dict) lemmas. -/

theorem alGet_alSet_self {κ β : Type} [BEq κ] [LawfulBEq κ]
    (d : List (κ × β)) (k : κ) (v : β) : alGet (alSet d k v) k = some v := by
  induction d with
  | nil => simp [alGet, alSet]
  | cons p rest ih =>
    by_cases h : p.1 == k
    · simp [alSet, h, alGet]
    · simp only [alSet, h, if_false]
      simpa [alGet, List.find?_cons, h] using ih

theorem alGet_alSet_ne {κ β : Type} [BEq κ] [LawfulBEq κ]
    (d : List (κ × β)) (k k' : κ) (v : β) (hne : k' ≠ k) :
    alGet (alSet d k v) k' = alGet d k' := by
  have hkk : (k == k') = false := by
    simp [beq_iff_eq]
    exact fun h => hne h.symm
  induction d with
  | nil => simp [alGet, alSet, List.find?_cons, hkk]
  | cons p rest ih =>
    by_cases h : p.1 == k
    · have hpk : p.1 = k := by simpa [beq_iff_eq] using h
      have hpk' : (p.1 == k') = false := by
        rw [hpk]; exact hkk
      simp [alSet, h, alGet, List.find?_cons, hkk, hpk']
    · by_cases h' : p.1 == k'
      · simp [alSet, h, alGet, List.find?_cons, h']
      · simp only [alSet, h, if_false]
        simpa [alGet, List.find?_cons, h'] using ih

theorem keysOf_alSet_mem {κ β : Type} [BEq κ] [LawfulBEq κ]
    (d : List (κ × β)) (k : κ) (v : β) (hmem : k ∈ keysOf d) :
    keysOf (alSet d k v) = keysOf d := by
  induction d with
  | nil => simp [keysOf] at hmem
  | cons p rest ih =>
    by_cases h : p.1 == k
    · have hpk : p.1 = k := by simpa [beq_iff_eq] using h
      simp [alSet, h, keysOf, hpk]
    · have hpk : p.1 ≠ k := by simpa [beq_iff_eq] using h
      have hmem' : k ∈ keysOf rest := by
        rcases (by simpa [keysOf] using hmem : k = p.1 ∨ k ∈ rest.map Prod.fst) with h1 | h2
        · exact absurd h1.symm hpk
        · simpa [keysOf] using h2
      simp only [alSet, h, if_false]
      simpa [keysOf] using congrArg (fun l => p.1 :: l) (ih hmem')

theorem keysOf_alSet_not_mem {κ β : Type} [BEq κ] [LawfulBEq κ]
    (d : List (κ × β)) (k : κ) (v : β) (hmem : k ∉ keysOf d) :
    keysOf (alSet d k v) = keysOf d ++ [k] := by
  induction d with
  | nil => simp [alSet, keysOf]
  | cons p rest ih =>
    have hpk : p.1 ≠ k := by
      intro hc
      exact hmem (by simp [keysOf, hc])
    have hmem' : k ∉ keysOf rest := by
      intro hc
      exact hmem (by simp [keysOf] at hc ⊢; exact Or.inr hc)
    have h : (p.1 == k) = false := by simpa [beq_iff_eq] using hpk
    simp only [alSet, h, if_false]
    simpa [keysOf] using congrArg (fun l => p.1 :: l) (ih hmem')

theorem nodupKeys_alSet {κ β : Type} [BEq κ] [LawfulBEq κ]
    (d : List (κ × β)) (k : κ) (v : β) (hnd : (keysOf d).Nodup) :
    (keysOf (alSet d k v)).Nodup := by
  by_cases hmem : k ∈ keysOf d
  · simpa [keysOf_alSet_mem d k v hmem] using hnd
  · rw [keysOf_alSet_not_mem d k v hmem]
    simpa [List.nodup_append] using ⟨hnd, fun hc => hmem hc⟩

theorem nodupKeys_alUpdate {κ β : Type} [BEq κ] [LawfulBEq κ]
    (e d : List (κ × β)) (hnd : (keysOf d).Nodup) :
    (keysOf (alUpdate d e)).Nodup := by
  induction e generalizing d with
  | nil => simpa [alUpdate] using hnd
  | cons p rest ih =>
    have := ih (alSet d p.1 p.2) (nodupKeys_alSet d p.1 p.2 hnd)
    simpa [alUpdate] using this

theorem alGet_alUpdate_not_mem {κ β : Type} [BEq κ] [LawfulBEq κ]
    (e d : List (κ × β)) (k : κ) (hmem : k ∉ keysOf e) :
    alGet (alUpdate d e) k = alGet d k := by
  induction e generalizing d with
  | nil => simp [alUpdate]
  | cons p rest ih =>
    have hpk : k ≠ p.1 := by
      intro hc
      exact hmem (by simp [keysOf, hc])
    have hmem' : k ∉ keysOf rest := by
      intro hc
      exact hmem (by simp [keysOf] at hc ⊢; exact Or.inr hc)
    have step : alGet (alUpdate (alSet d p.1 p.2) rest) k
        = alGet (alSet d p.1 p.2) k := ih (alSet d p.1 p.2) hmem'
    calc alGet (alUpdate d (p :: rest)) k
        = alGet (alUpdate (alSet d p.1 p.2) rest) k := by simp [alUpdate]
      _ = alGet (alSet d p.1 p.2) k := step
      _ = alGet d k := alGet_alSet_ne d p.1 k p.2 hpk

theorem alGet_alUpdate_mem {κ β : Type} [BEq κ] [LawfulBEq κ]
    (e d : List (κ × β)) (hnd : (keysOf e).Nodup) :
    ∀ p ∈ e, alGet (alUpdate d e) p.1 = some p.2 := by
  induction e generalizing d with
  | nil => intro p hp; simp at hp
  | cons q rest ih =>
    intro p hp
    have hq : q.1 ∉ keysOf rest := by
      have := hnd
      simp [keysOf, List.nodup_cons] at this
      intro hc
      simp [keysOf] at hc
      obtain ⟨b, hb⟩ := hc
      exact this.1 b hb
    rcases List.mem_cons.mp hp with hp | hp
    · subst hp
      calc alGet (alUpdate d (p :: rest)) p.1
          = alGet (alUpdate (alSet d p.1 p.2) rest) p.1 := by simp [alUpdate]
        _ = alGet (alSet d p.1 p.2) p.1 :=
            alGet_alUpdate_not_mem rest (alSet d p.1 p.2) p.1 hq
        _ = some p.2 := alGet_alSet_self d p.1 p.2
    · have hnd' : (keysOf rest).Nodup := by
        have := hnd
        simp [keysOf, List.nodup_cons] at this
        simpa [keysOf] using this.2
      have := ih (alSet d q.1 q.2) hnd' p hp
      simpa [alUpdate] using this

theorem alSet_eq_self {κ β : Type} [BEq κ] [LawfulBEq κ]
    (d : List (κ × β)) (k : κ) (v : β) (hnd : (keysOf d).Nodup)
    (hget : alGet d k = some v) : alSet d k v = d := by
  induction d with
  | nil => simp [alGet] at hget
  | cons p rest ih =>
    by_cases h : p.1 == k
    · have hpk : p.1 = k := by simpa [beq_iff_eq] using h
      have hv : p.2 = v := by
        simp [alGet, List.find?_cons, h] at hget
        exact hget
      simp [alSet, h, ← hpk, ← hv]
    · have hget' : alGet rest k = some v := by
        simpa [alGet, List.find?_cons, h] using hget
      have hnd' : (keysOf rest).Nodup := by
        have h2 := hnd
        simp only [keysOf, List.map_cons, List.nodup_cons] at h2
        exact h2.2
      have h' : (p.1 == k) = false := by simpa using h
      simp [alSet, h', ih hnd' hget']

theorem alUpdate_eq_self {κ β : Type} [BEq κ] [LawfulBEq κ]
    (e d : List (κ × β)) (hnd : (keysOf d).Nodup)
    (hget : ∀ p ∈ e, alGet d p.1 = some p.2) : alUpdate d e = d := by
  induction e with
  | nil => simp [alUpdate]
  | cons p rest ih =>
    have h1 : alSet d p.1 p.2 = d := alSet_eq_self d p.1 p.2 hnd (hget p (by simp))
    have h2 : alUpdate d rest = d := ih (fun q hq => hget q (by simp [hq]))
    calc alUpdate d (p :: rest)
        = alUpdate (alSet d p.1 p.2) rest := by simp [alUpdate]
      _ = alUpdate d rest := by rw [h1]
      _ = d := h2

theorem alUpdate_idem {κ β : Type} [BEq κ] [LawfulBEq κ]
    (d e : List (κ × β)) (hndd : (keysOf d).Nodup) (hnde : (keysOf e).Nodup) :
    alUpdate (alUpdate d e) e = alUpdate d e :=
  alUpdate_eq_self e (alUpdate d e) (nodupKeys_alUpdate e d hndd)
    (alGet_alUpdate_mem e d hnde)

/-! String-operation lemmas. -/

theorem replaceAux_no_occurrence (pat rep : List Char) :
    ∀ (f : Nat) (cs : List Char), ¬ (pat <:+: cs) →
      replaceAux pat rep f cs = cs := by
  intro f
  induction f with
  | zero => intro cs _; rfl
  | succ f ih =>
    intro cs hno
    match cs with
    | [] => rfl
    | c :: cs' =>
      have hpre : pat.isPrefixOf (c :: cs') = false := by
        by_contra hc
        have : pat.isPrefixOf (c :: cs') = true := by
          revert hc
          cases pat.isPrefixOf (c :: cs') <;> simp
        have hpfx : pat <+: (c :: cs') := by simpa using this
        exact hno hpfx.isInfix
      have htail : ¬ (pat <:+: cs') := by
        intro hc
        obtain ⟨s1, t1, hst⟩ := hc
        exact hno ⟨c :: s1, t1, congrArg (fun l => c :: l) hst⟩
      simp [replaceAux, hpre, ih cs' htail]

theorem pyReplace_no_occurrence (q pat rep : String)
    (hno : ¬ (pat.data <:+: q.data)) : pyReplace q pat rep = q := by
  unfold pyReplace
  rw [replaceAux_no_occurrence pat.data rep.data (q.data.length + 1) q.data hno]

theorem digitsVal_append (l : List Char) (c : Char) :
    digitsVal (l ++ [c]) = 10 * digitsVal l + (c.toNat - 48) := by
  simp [digitsVal, List.foldl_append]

theorem digitChar_toNat_eq : ∀ d : Nat, d < 10 → (Nat.digitChar d).toNat = 48 + d := by
  decide

theorem digitChar_isDigit : ∀ d : Nat, d < 10 → (Nat.digitChar d).isDigit = true := by
  decide

theorem digitsVal_natToStrAux :
    ∀ (f m : Nat), m ≤ f → digitsVal (natToStrAux f m) = m := by
  intro f
  induction f with
  | zero =>
    intro m hm
    interval_cases m
    simp [natToStrAux, digitsVal]
  | succ f ih =>
    intro m hm
    match m with
    | 0 => simp [natToStrAux, digitsVal]
    | m + 1 =>
      have hdiv : (m + 1) / 10 ≤ f := by
        have h1 : (m + 1) / 10 < m + 1 := Nat.div_lt_self (Nat.succ_pos m) (by omega)
        omega
      have hmod : (m + 1) % 10 < 10 := Nat.mod_lt _ (by omega)
      calc digitsVal (natToStrAux (f + 1) (m + 1))
          = digitsVal (natToStrAux f ((m + 1) / 10) ++
              [Nat.digitChar ((m + 1) % 10)]) := rfl
        _ = 10 * digitsVal (natToStrAux f ((m + 1) / 10)) +
              ((Nat.digitChar ((m + 1) % 10)).toNat - 48) := digitsVal_append _ _
        _ = 10 * ((m + 1) / 10) + ((m + 1) % 10) := by
              rw [ih ((m + 1) / 10) hdiv, digitChar_toNat_eq _ hmod]
              omega
        _ = m + 1 := Nat.div_add_mod (m + 1) 10

theorem digitsVal_natToStr (n : Nat) : digitsVal (natToStr n).data = n := by
  by_cases h : n = 0
  · subst h; decide
  · unfold natToStr
    simp only [h, if_false]
    exact digitsVal_natToStrAux n n (Nat.le_refl n)

theorem natToStr_injective : Function.Injective natToStr := by
  intro a b hab
  have := congrArg (fun s => digitsVal s.data) hab
  simpa [digitsVal_natToStr] using this

theorem natToStrAux_all_digits :
    ∀ (f m : Nat) (c : Char), c ∈ natToStrAux f m → c.isDigit = true := by
  intro f
  induction f with
  | zero => intro m c hc; simp [natToStrAux] at hc
  | succ f ih =>
    intro m c hc
    match m with
    | 0 => simp [natToStrAux] at hc
    | m + 1 =>
      simp only [natToStrAux, List.mem_append, List.mem_singleton] at hc
      rcases hc with hc | hc
      · exact ih _ c hc
      · subst hc
        exact digitChar_isDigit _ (Nat.mod_lt _ (by omega))

theorem natToStr_all_digits (n : Nat) (c : Char)
    (hc : c ∈ (natToStr n).data) : c.isDigit = true := by
  by_cases h : n = 0
  · subst h
    simp [natToStr] at hc
    subst hc
    decide
  · unfold natToStr at hc
    simp only [h, if_false] at hc
    exact natToStrAux_all_digits n n c hc

theorem natToStr_ne_nil (n : Nat) : (natToStr n).data ≠ [] := by
  by_cases h : n = 0
  · subst h; decide
  · unfold natToStr
    simp only [h, if_false]
    match n, h with
    | m + 1, _ =>
      show natToStrAux (m + 1) (m + 1) ≠ []
      simp [natToStrAux]

/-- Unique decomposition of a string into a digit-free part followed by an
all-digit part. -/
theorem split_digit_boundary (a1 a2 b1 b2 : List Char)
    (ha1 : ∀ c ∈ a1, c.isDigit = false) (ha2 : ∀ c ∈ a2, c.isDigit = false)
    (hb1 : ∀ c ∈ b1, c.isDigit = true) (hb2 : ∀ c ∈ b2, c.isDigit = true)
    (h : a1 ++ b1 = a2 ++ b2) : a1 = a2 ∧ b1 = b2 := by
  rcases List.append_eq_append_iff.mp h with ⟨t, ht1, ht2⟩ | ⟨t, ht1, ht2⟩
  · have htnil : t = [] := by
      match t with
      | [] => rfl
      | c :: _ =>
        have hd : c.isDigit = true := hb1 c (by simp [ht2])
        have hnd : c.isDigit = false := ha2 c (by simp [ht1])
        rw [hd] at hnd
        exact absurd hnd (by simp)
    subst htnil
    constructor
    · simpa using ht1.symm
    · simpa using ht2
  · have htnil : t = [] := by
      match t with
      | [] => rfl
      | c :: _ =>
        have hd : c.isDigit = true := hb2 c (by simp [ht2])
        have hnd : c.isDigit = false := ha1 c (by simp [ht1])
        rw [hd] at hnd
        exact absurd hnd (by simp)
    subst htnil
    constructor
    · simpa using ht1
    · simpa using ht2.symm

/-! Row-folding mapper lemmas. -/

theorem beq_swap {α : Type} [BEq α] [LawfulBEq α] (a b : α) :
    (a == b) = (b == a) := by
  by_cases h : a = b
  · subst h; rfl
  · have h1 : (a == b) = false := by simpa [beq_iff_eq] using h
    have h2 : (b == a) = false := by simpa [beq_iff_eq] using Ne.symm h
    rw [h1, h2]

theorem foldRow_idv (s : MapperSchema) (r : FoldedRecord) (row : Row) :
    (foldRow s r row).idv = r.idv := rfl

theorem foldRows_cons (s : MapperSchema) (r : FoldedRecord) (row : Row)
    (l : List Row) : foldRows s r (row :: l) = foldRows s (foldRow s r row) l := rfl

theorem foldRows_idv (s : MapperSchema) (r : FoldedRecord) (l : List Row) :
    (foldRows s r l).idv = r.idv := by
  induction l generalizing r with
  | nil => rfl
  | cons row rest ih => rw [foldRows_cons]; exact ih (foldRow s r row)

theorem insertRow_pos (s : MapperSchema) (acc : List FoldedRecord) (row : Row)
    (h : acc.any (fun r => r.idv == identityOf s row) = true) :
    insertRow s acc row =
      acc.map (fun r =>
        if r.idv == identityOf s row then foldRow s r row else r) := by
  simp [insertRow, h]

theorem insertRow_neg (s : MapperSchema) (acc : List FoldedRecord) (row : Row)
    (h : acc.any (fun r => r.idv == identityOf s row) = false) :
    insertRow s acc row = acc ++ [foldRow s (initRecord s row) row] := by
  simp [insertRow, h]

/-- The single accumulating pass of the combining mapper, started from any
accumulator, folds each matching row into the accumulated records and treats
the rows of unseen identities as a fresh run. -/
theorem foldl_insertRow_general (s : MapperSchema) :
    ∀ (n : Nat) (rows : List Row), rows.length ≤ n → ∀ (acc : List FoldedRecord),
      rows.foldl (insertRow s) acc =
        acc.map (fun r => foldRows s r
          (rows.filter (fun row => identityOf s row == r.idv)))
        ++ (rows.filter (fun row =>
              !(acc.any (fun r => r.idv == identityOf s row)))).foldl
            (insertRow s) [] := by
  intro n
  induction n with
  | zero =>
    intro rows hlen acc
    have : rows = [] := List.length_eq_zero.mp (Nat.le_zero.mp hlen)
    subst this
    simp [foldRows]
  | succ n ih =>
    intro rows hlen acc
    match rows with
    | [] => simp [foldRows]
    | row :: rest =>
      have hrest : rest.length ≤ n := by
        have := hlen
        simp only [List.length_cons] at this
        omega
      by_cases hA : acc.any (fun r => r.idv == identityOf s row) = true
      · -- an existing record matches: the row is folded in place
        have step : (row :: rest).foldl (insertRow s) acc
            = rest.foldl (insertRow s)
                (acc.map (fun r =>
                  if r.idv == identityOf s row then foldRow s r row else r)) := by
          rw [List.foldl_cons, insertRow_pos s acc row hA]
        rw [step, ih rest hrest]
        congr 1
        · rw [List.map_map]
          refine List.map_congr_left (fun r _ => ?_)
          simp only [Function.comp_apply]
          by_cases hr : (r.idv == identityOf s row) = true
          · have hid : (identityOf s row == r.idv) = true := by
              rw [beq_swap]; exact hr
            have hcons : (row :: rest).filter
                (fun row2 => identityOf s row2 == r.idv)
                = row :: rest.filter (fun row2 => identityOf s row2 == r.idv) := by
              simp [List.filter_cons, hid]
            rw [if_pos hr, hcons, foldRows_cons, foldRow_idv]
          · have hid : (identityOf s row == r.idv) = false := by
              rw [beq_swap]; simpa using hr
            have hcons : (row :: rest).filter
                (fun row2 => identityOf s row2 == r.idv)
                = rest.filter (fun row2 => identityOf s row2 == r.idv) := by
              simp [List.filter_cons, hid]
            rw [if_neg hr, hcons]
        · have hfilter : (row :: rest).filter (fun row2 =>
                !(acc.any (fun r => r.idv == identityOf s row2)))
              = rest.filter (fun row2 =>
                !(acc.any (fun r => r.idv == identityOf s row2))) := by
            simp [List.filter_cons, hA]
          rw [hfilter]
          congr 1
          refine List.filter_congr (fun row2 _ => ?_)
          rw [List.any_map]
          have hfun : ((fun r => r.idv == identityOf s row2) ∘
              (fun r => if r.idv == identityOf s row then foldRow s r row else r))
              = (fun r => r.idv == identityOf s row2) := by
            funext r
            by_cases hr : (r.idv == identityOf s row) = true
            · simp [Function.comp, hr, foldRow_idv]
            · simp [Function.comp, hr]
          rw [hfun]
      · -- a new identity: the record is appended, in first-seen order
        have hA2 : acc.any (fun r => r.idv == identityOf s row) = false := by
          simpa using hA
        have hnotin : ∀ r ∈ acc, (r.idv == identityOf s row) = false := by
          intro r hr
          have := List.any_eq_false.mp hA2 r hr
          simpa using this
        have step : (row :: rest).foldl (insertRow s) acc
            = rest.foldl (insertRow s)
                (acc ++ [foldRow s (initRecord s row) row]) := by
          rw [List.foldl_cons, insertRow_neg s acc row hA2]
        have hr0idv : (foldRow s (initRecord s row) row).idv = identityOf s row := rfl
        rw [step, ih rest hrest]
        -- abbreviations
        rw [List.map_append]
        -- the singleton new record
        have hsingle : [foldRow s (initRecord s row) row].map
              (fun r => foldRows s r
                (rest.filter (fun row2 => identityOf s row2 == r.idv)))
            = [foldRows s (foldRow s (initRecord s row) row)
                (rest.filter (fun row2 => identityOf s row2 == identityOf s row))] := by
          simp [hr0idv]
        rw [hsingle]
        -- the right-hand side: the head row starts the fresh run
        have hfilter2 : (row :: rest).filter (fun row2 =>
              !(acc.any (fun r => r.idv == identityOf s row2)))
            = row :: rest.filter (fun row2 =>
              !(acc.any (fun r => r.idv == identityOf s row2))) := by
          simp [List.filter_cons, hA2]
        rw [hfilter2, List.foldl_cons]
        have hinsnil : insertRow s [] row = [foldRow s (initRecord s row) row] := by
          simp [insertRow]
        rw [hinsnil]
        have hXlen : (rest.filter (fun row2 =>
            !(acc.any (fun r => r.idv == identityOf s row2)))).length ≤ n :=
          Nat.le_trans (List.length_filter_le _ _) hrest
        rw [ih _ hXlen [foldRow s (initRecord s row) row]]
        -- reduce the singleton accumulator
        have hsingle2 : [foldRow s (initRecord s row) row].map
              (fun r => foldRows s r
                ((rest.filter (fun row2 =>
                  !(acc.any (fun r2 => r2.idv == identityOf s row2)))).filter
                    (fun row2 => identityOf s row2 == r.idv)))
            = [foldRows s (foldRow s (initRecord s row) row)
                ((rest.filter (fun row2 =>
                  !(acc.any (fun r2 => r2.idv == identityOf s row2)))).filter
                    (fun row2 => identityOf s row2 == identityOf s row))] := by
          simp [hr0idv]
        rw [hsingle2]
        -- the two double filters collapse
        have hff1 : (rest.filter (fun row2 =>
              !(acc.any (fun r2 => r2.idv == identityOf s row2)))).filter
                (fun row2 => identityOf s row2 == identityOf s row)
            = rest.filter (fun row2 => identityOf s row2 == identityOf s row) := by
          rw [List.filter_filter]
          refine List.filter_congr (fun row2 _ => ?_)
          by_cases hq : (identityOf s row2 == identityOf s row) = true
          · have hid : identityOf s row2 = identityOf s row := by simpa using hq
            have : acc.any (fun r2 => r2.idv == identityOf s row2) = false := by
              rw [hid]; exact hA2
            simp [hq, this]
          · have hq2 : (identityOf s row2 == identityOf s row) = false := by
              simpa using hq
            simp [hq2]
        have hff2 : (rest.filter (fun row2 =>
              !(acc.any (fun r2 => r2.idv == identityOf s row2)))).filter
                (fun row2 => !([foldRow s (initRecord s row) row].any
                  (fun r2 => r2.idv == identityOf s row2)))
            = rest.filter (fun row2 =>
                !((acc ++ [foldRow s (initRecord s row) row]).any
                  (fun r2 => r2.idv == identityOf s row2))) := by
          rw [List.filter_filter]
          refine List.filter_congr (fun row2 _ => ?_)
          simp only [List.any_append, List.any_cons, List.any_nil]
          cases hacc : acc.any (fun r2 => r2.idv == identityOf s row2) <;>
            cases hx : ((foldRow s (initRecord s row) row).idv == identityOf s row2) <;>
              simp [hacc, hx]
        rw [hff1, hff2]
        -- the surviving accumulated records ignore the head row
        have hmap : acc.map (fun r => foldRows s r
              ((row :: rest).filter (fun row2 => identityOf s row2 == r.idv)))
            = acc.map (fun r => foldRows s r
              (rest.filter (fun row2 => identityOf s row2 == r.idv))) := by
          refine List.map_congr_left (fun r hr => ?_)
          have hid : (identityOf s row == r.idv) = false := by
            rw [beq_swap]; exact hnotin r hr
          simp [List.filter_cons, hid]
        rw [hmap, List.append_assoc]

/-- Dropping the rows of one identity commutes with taking the distinct
identities in first-seen order. -/
theorem firstSeenIds_filter (s : MapperSchema) (i : List (Option Scalar)) :
    ∀ rows : List Row,
      firstSeenIds s (rows.filter (fun row => !(identityOf s row == i)))
        = (firstSeenIds s rows).filter (fun j => !(j == i)) := by
  intro rows
  induction rows with
  | nil => rfl
  | cons r rs ih =>
    by_cases hj : (identityOf s r == i) = true
    · have hid : identityOf s r = i := by simpa using hj
      have hl : (r :: rs).filter (fun row => !(identityOf s row == i))
          = rs.filter (fun row => !(identityOf s row == i)) := by
        simp [List.filter_cons, hj]
      rw [hl, ih]
      have hr : (firstSeenIds s (r :: rs)).filter (fun j => !(j == i))
          = ((firstSeenIds s rs).filter
              (fun j => !(j == identityOf s r))).filter (fun j => !(j == i)) := by
        simp [firstSeenIds, List.filter_cons, hj, hid]
      rw [hr, List.filter_filter]
      refine (List.filter_congr (fun j _ => ?_)).symm
      rw [hid]
      cases h : (j == i) <;> simp [h]
    · have hj2 : (identityOf s r == i) = false := by simpa using hj
      have hl : (r :: rs).filter (fun row => !(identityOf s row == i))
          = r :: rs.filter (fun row => !(identityOf s row == i)) := by
        simp [List.filter_cons, hj2]
      rw [hl]
      show identityOf s r :: (firstSeenIds s
            (rs.filter (fun row => !(identityOf s row == i)))).filter
            (fun j => !(j == identityOf s r))
          = (firstSeenIds s (r :: rs)).filter (fun j => !(j == i))
      rw [ih]
      have hr : (firstSeenIds s (r :: rs)).filter (fun j => !(j == i))
          = identityOf s r :: ((firstSeenIds s rs).filter
              (fun j => !(j == identityOf s r))).filter (fun j => !(j == i)) := by
        simp [firstSeenIds, List.filter_cons, hj2]
      rw [hr, List.filter_filter, List.filter_filter]
      refine congrArg (fun l => identityOf s r :: l) ?_
      refine List.filter_congr (fun j _ => ?_)
      cases h1 : (j == i) <;> cases h2 : (j == identityOf s r) <;> simp [h1, h2]

/-- The combining mapper equals partition-then-fold: one record per distinct
identity, in first-seen order, each obtained by folding exactly its
partition's rows in row order. -/
theorem mapRecords_partition_bounded (s : MapperSchema) :
    ∀ (n : Nat) (rows : List Row), rows.length ≤ n →
      mapRecords s rows = (firstSeenIds s rows).map (partitionFold s rows) := by
  intro n
  induction n with
  | zero =>
    intro rows hlen
    have : rows = [] := List.length_eq_zero.mp (Nat.le_zero.mp hlen)
    subst this
    rfl
  | succ n ih =>
    intro rows hlen
    match rows with
    | [] => rfl
    | row :: rest =>
      have hrest : rest.length ≤ n := by
        have := hlen
        simp only [List.length_cons] at this
        omega
      have hii : (identityOf s row == identityOf s row) = true := by simp
      have hstep : mapRecords s (row :: rest)
          = rest.foldl (insertRow s) [foldRow s (initRecord s row) row] := by
        show (row :: rest).foldl (insertRow s) []
            = rest.foldl (insertRow s) [foldRow s (initRecord s row) row]
        rw [List.foldl_cons, insertRow_neg s [] row (by simp)]
        rfl
      have hr0idv : (foldRow s (initRecord s row) row).idv = identityOf s row := rfl
      rw [hstep,
        foldl_insertRow_general s rest.length rest (Nat.le_refl _)
          [foldRow s (initRecord s row) row]]
      -- normalize the two pieces produced by the general lemma
      have hhead : [foldRow s (initRecord s row) row].map
            (fun r => foldRows s r
              (rest.filter (fun row2 => identityOf s row2 == r.idv)))
          = [partitionFold s (row :: rest) (identityOf s row)] := by
        have hfc : (row :: rest).filter
            (fun row2 => identityOf s row2 == identityOf s row)
            = row :: rest.filter
                (fun row2 => identityOf s row2 == identityOf s row) := by
          simp [List.filter_cons, hii]
        simp only [List.map_cons, List.map_nil, hr0idv]
        rw [show partitionFold s (row :: rest) (identityOf s row)
            = foldRows s (foldRow s (initRecord s row) row)
                (rest.filter (fun row2 => identityOf s row2 == identityOf s row))
          from by simp only [partitionFold, hfc]]
      have htailpred : rest.filter (fun row2 =>
            !([foldRow s (initRecord s row) row].any
              (fun r => r.idv == identityOf s row2)))
          = rest.filter (fun row2 => !(identityOf s row2 == identityOf s row)) := by
        refine List.filter_congr (fun row2 _ => ?_)
        simp only [List.any_cons, List.any_nil, hr0idv, Bool.or_false]
        rw [beq_swap]
      rw [hhead, htailpred]
      have hXlen : (rest.filter (fun row2 =>
          !(identityOf s row2 == identityOf s row))).length ≤ n :=
        Nat.le_trans (List.length_filter_le _ _) hrest
      have hX := ih _ hXlen
      rw [show (rest.filter (fun row2 =>
            !(identityOf s row2 == identityOf s row))).foldl (insertRow s) []
          = mapRecords s (rest.filter (fun row2 =>
            !(identityOf s row2 == identityOf s row))) from rfl, hX]
      rw [firstSeenIds_filter s (identityOf s row) rest]
      -- fold of a sub-partition equals fold of the partition in the full list
      have hmapcong : ((firstSeenIds s rest).filter
            (fun j => !(j == identityOf s row))).map
              (partitionFold s (rest.filter (fun row2 =>
                !(identityOf s row2 == identityOf s row))))
          = ((firstSeenIds s rest).filter
            (fun j => !(j == identityOf s row))).map
              (partitionFold s (row :: rest)) := by
        refine List.map_congr_left (fun j hj => ?_)
        have hji : (j == identityOf s row) = false := by
          have := (List.mem_filter.mp hj).2
          simpa using this
        have hjneq : j ≠ identityOf s row := by simpa using hji
        have hfe : (rest.filter (fun row2 =>
              !(identityOf s row2 == identityOf s row))).filter
                (fun row2 => identityOf s row2 == j)
            = (row :: rest).filter (fun row2 => identityOf s row2 == j) := by
          rw [List.filter_filter]
          have hrow : (identityOf s row == j) = false := by
            simp only [beq_eq_false_iff_ne, ne_eq]
            exact fun h => hjneq h.symm
          rw [List.filter_cons]
          simp only [hrow, Bool.false_eq_true, if_false]
          refine List.filter_congr (fun row2 _ => ?_)
          by_cases h2 : (identityOf s row2 == j) = true
          · have hid2 : identityOf s row2 = j := by simpa using h2
            have : (identityOf s row2 == identityOf s row) = false := by
              simp only [beq_eq_false_iff_ne, ne_eq]
              rw [hid2]
              exact hjneq
            simp [h2, this]
          · have h2f : (identityOf s row2 == j) = false := by simpa using h2
            simp [h2f]
        simp only [partitionFold, hfe]
      rw [hmapcong]
      show [partitionFold s (row :: rest) (identityOf s row)]
          ++ ((firstSeenIds s rest).filter
            (fun j => !(j == identityOf s row))).map (partitionFold s (row :: rest))
        = (firstSeenIds s (row :: rest)).map (partitionFold s (row :: rest))
      rw [show firstSeenIds s (row :: rest)
          = identityOf s row ::
            (firstSeenIds s rest).filter (fun j => !(j == identityOf s row))
        from rfl]
      simp

/-- Unbounded form of the partition theorem. -/
theorem mapRecords_partition (s : MapperSchema) (rows : List Row) :
    mapRecords s rows = (firstSeenIds s rows).map (partitionFold s rows) :=
  mapRecords_partition_bounded s rows.length rows (Nat.le_refl _)

/-! Generated-binding-name lemmas. -/

theorem dotToUnderscore_no_digit (k : String)
    (hd : ∀ c ∈ k.data, c.isDigit = false) :
    ∀ c ∈ (dotToUnderscore k).data, c.isDigit = false := by
  intro c hc
  simp only [dotToUnderscore, List.mem_map] at hc
  obtain ⟨c0, hc0, heq⟩ := hc
  by_cases h : c0 = '.'
  · subst heq
    simp [h]
  · subst heq
    simpa [h] using hd c0 hc0

/-- A generated binding name determines its base key (after dot rewriting)
and its element index, provided the key contains no digit. -/
theorem genName_inj (k1 k2 : String) (i j : Nat)
    (hd1 : ∀ c ∈ k1.data, c.isDigit = false)
    (hd2 : ∀ c ∈ k2.data, c.isDigit = false)
    (h : dotToUnderscore k1 ++ "_" ++ natToStr i
        = dotToUnderscore k2 ++ "_" ++ natToStr j) :
    dotToUnderscore k1 = dotToUnderscore k2 ∧ i = j := by
  have hdata : ((dotToUnderscore k1).data ++ ['_']) ++ (natToStr i).data
      = ((dotToUnderscore k2).data ++ ['_']) ++ (natToStr j).data := by
    have := congrArg String.data h
    simpa [List.append_assoc] using this
  have hsplit := split_digit_boundary
    ((dotToUnderscore k1).data ++ ['_']) ((dotToUnderscore k2).data ++ ['_'])
    (natToStr i).data (natToStr j).data
    (by
      intro c hc
      rcases List.mem_append.mp hc with hc | hc
      · exact dotToUnderscore_no_digit k1 hd1 c hc
      · simp only [List.mem_singleton] at hc
        subst hc
        rfl)
    (by
      intro c hc
      rcases List.mem_append.mp hc with hc | hc
      · exact dotToUnderscore_no_digit k2 hd2 c hc
      · simp only [List.mem_singleton] at hc
        subst hc
        rfl)
    (fun c hc => natToStr_all_digits i c hc)
    (fun c hc => natToStr_all_digits j c hc)
    hdata
  refine ⟨?_, ?_⟩
  · exact String.ext (List.append_cancel_right hsplit.1)
  · exact natToStr_injective (String.ext hsplit.2)

/-- The binding names produced by the inner parameterization of a sequence,
as the image of the element indices. -/
theorem inner_names_factor (key : String) (b : Bool) (vs : List PyElem) :
    (Templates.parameterize_inner_list key (.seq b vs)).2.map Prod.fst
      = (List.range vs.length).map
          (fun i => dotToUnderscore key ++ "_" ++ natToStr i) := by
  simp only [Templates.parameterize_inner_list, List.map_map]
  rw [show (Prod.fst ∘ fun p : Nat × PyElem =>
        (dotToUnderscore key ++ "_" ++ natToStr p.1, p.2.toVal))
      = ((fun i => dotToUnderscore key ++ "_" ++ natToStr i) ∘ Prod.fst) from rfl]
  rw [← List.map_map]
  simp

theorem natToStr_append_inj (key : String) :
    Function.Injective (fun i => dotToUnderscore key ++ "_" ++ natToStr i) := by
  intro i j hij
  have := congrArg String.data hij
  simp only [String.data_append] at this
  have h2 : (natToStr i).data = (natToStr j).data :=
    List.append_cancel_left this
  exact natToStr_injective (String.ext h2)

theorem inner_names_nodup (key : String) (b : Bool) (vs : List PyElem) :
    ((Templates.parameterize_inner_list key (.seq b vs)).2.map Prod.fst).Nodup := by
  rw [inner_names_factor]
  exact List.Nodup.map (natToStr_append_inj key) (List.nodup_range _)

/-! Seed-independence of the substitution loop. -/

/-- The value that `d.update(e)` leaves at a key of `e` does not depend on
the dict being updated. -/
theorem alGet_alUpdate_indep {κ β : Type} [BEq κ] [LawfulBEq κ]
    (d : List (κ × β)) (n : κ) (hmem : n ∈ keysOf d) :
    ∀ p1 p2 : List (κ × β), alGet (alUpdate p1 d) n = alGet (alUpdate p2 d) n := by
  induction d with
  | nil => simp [keysOf] at hmem
  | cons q0 rest ih =>
    intro p1 p2
    by_cases hm : n ∈ keysOf rest
    · have := ih hm (alSet p1 q0.1 q0.2) (alSet p2 q0.1 q0.2)
      simpa [alUpdate] using this
    · have hnq : n = q0.1 := by
        rcases (by simpa [keysOf] using hmem : n = q0.1 ∨ n ∈ rest.map Prod.fst)
          with h | h
        · exact h
        · exact absurd (by simpa [keysOf] using h) hm
      calc alGet (alUpdate p1 (q0 :: rest)) n
          = alGet (alUpdate (alSet p1 q0.1 q0.2) rest) n := by simp [alUpdate]
        _ = alGet (alSet p1 q0.1 q0.2) n :=
            alGet_alUpdate_not_mem rest (alSet p1 q0.1 q0.2) n hm
        _ = some q0.2 := by rw [hnq]; exact alGet_alSet_self p1 q0.1 q0.2
        _ = alGet (alSet p2 q0.1 q0.2) n := by
            rw [hnq]; exact (alGet_alSet_self p2 q0.1 q0.2).symm
        _ = alGet (alUpdate (alSet p2 q0.1 q0.2) rest) n :=
            (alGet_alUpdate_not_mem rest (alSet p2 q0.1 q0.2) n hm).symm
        _ = alGet (alUpdate p2 (q0 :: rest)) n := by simp [alUpdate]

/-- One substitution step either fails identically for every query/params
state, or rewrites the query and merges one fixed dict — the key's split,
template lookup and rendering depend only on the key and the template
parameters. -/
theorem substStep_shape (tp : Option Params) (k : String) :
    (∃ e, ∀ (q : String) (p : Params), substStep tp k q p = .error e)
    ∨ (∃ (tq : String) (pd : Option Params), ∀ (q : String) (p : Params),
        substStep tp k q p
          = .ok (pyReplace q ("\x7b" ++ k ++ "\x7d") (" " ++ tq ++ " "),
              match pd with
              | some d => if d.isEmpty then p else alUpdate p d
              | Option.none => p)) := by
  cases hsp : pySplit k "__" with
  | nil => exact Or.inl ⟨.valueError, fun q p => by simp [substStep, hsp]⟩
  | cons a t =>
    cases t with
    | nil => exact Or.inl ⟨.valueError, fun q p => by simp [substStep, hsp]⟩
    | cons b t2 =>
      cases t2 with
      | cons c t3 =>
        exact Or.inl ⟨.valueError, fun q p => by simp [substStep, hsp]⟩
      | nil =>
        cases hgt : Templates.get_template a with
        | none =>
          exact Or.inl ⟨.typeError, fun q p => by simp [substStep, hsp, hgt]⟩
        | some tmpl =>
          cases hlk : tpLookup tp k with
          | error e =>
            exact Or.inl ⟨e, fun q p => by simp [substStep, hsp, hgt, hlk]⟩
          | ok v =>
            cases hr : tmpl b v (some k) with
            | error e =>
              exact Or.inl ⟨e, fun q p => by simp [substStep, hsp, hgt, hlk, hr]⟩
            | ok tqpd =>
              obtain ⟨tq, pd⟩ := tqpd
              refine Or.inr ⟨tq, pd, fun q p => ?_⟩
              cases pd with
              | none => simp [substStep, hsp, hgt, hlk, hr]
              | some d => simp [substStep, hsp, hgt, hlk, hr]

/-- The substitution loop is independent of the seeded parameters: from two
seeds, the rewritten query is the same, and every name either ends up equal
in both runs (a template expansion wrote it) or still carries each run's own
seed value (no template wrote it). -/
theorem substLoop_qp_independent (tp : Option Params) :
    ∀ (ks : List String) (q : String) (p1 p2 : Params) (r1 r2 : String × Params),
      substLoop tp ks q p1 = .ok r1 → substLoop tp ks q p2 = .ok r2 →
      r1.1 = r2.1 ∧ ∀ n, alGet r1.2 n = alGet r2.2 n
        ∨ (alGet r1.2 n = alGet p1 n ∧ alGet r2.2 n = alGet p2 n) := by
  intro ks
  induction ks with
  | nil =>
    intro q p1 p2 r1 r2 h1 h2
    cases h1
    cases h2
    exact ⟨rfl, fun n => Or.inr ⟨rfl, rfl⟩⟩
  | cons k ks ih =>
    intro q p1 p2 r1 r2 h1 h2
    rcases substStep_shape tp k with ⟨e, he⟩ | ⟨tq, pd, hok⟩
    · rw [show substLoop tp (k :: ks) q p1
          = (match substStep tp k q p1 with
            | Except.error e => Except.error e
            | Except.ok (q2, p2) => substLoop tp ks q2 p2) from rfl,
        he q p1] at h1
      cases h1
    · rw [show substLoop tp (k :: ks) q p1
          = (match substStep tp k q p1 with
            | Except.error e => Except.error e
            | Except.ok (q2, p2) => substLoop tp ks q2 p2) from rfl,
        hok q p1] at h1
      rw [show substLoop tp (k :: ks) q p2
          = (match substStep tp k q p2 with
            | Except.error e => Except.error e
            | Except.ok (q2, p2) => substLoop tp ks q2 p2) from rfl,
        hok q p2] at h2
      cases pd with
      | none =>
        dsimp only at h1 h2
        exact ih (pyReplace q ("\x7b" ++ k ++ "\x7d") (" " ++ tq ++ " "))
          p1 p2 r1 r2 h1 h2
      | some d =>
        dsimp only at h1 h2
        by_cases hde : d.isEmpty
        · rw [if_pos hde] at h1 h2
          exact ih (pyReplace q ("\x7b" ++ k ++ "\x7d") (" " ++ tq ++ " "))
            p1 p2 r1 r2 h1 h2
        · rw [if_neg hde] at h1 h2
          obtain ⟨hsql, hdisj⟩ := ih
            (pyReplace q ("\x7b" ++ k ++ "\x7d") (" " ++ tq ++ " "))
            (alUpdate p1 d) (alUpdate p2 d) r1 r2 h1 h2
          refine ⟨hsql, fun n => ?_⟩
          rcases hdisj n with h | ⟨ha, hb⟩
          · exact Or.inl h
          · by_cases hm : n ∈ keysOf d
            · exact Or.inl (by rw [ha, hb, alGet_alUpdate_indep d n hm p1 p2])
            · rw [alGet_alUpdate_not_mem d p1 n hm] at ha
              rw [alGet_alUpdate_not_mem d p2 n hm] at hb
              exact Or.inr ⟨ha, hb⟩

/-! The claims. -/

/-- C1: on a query referencing the two missing keys `in__a` and `in__b`,
`get_query_data` raises at the first missing key with a message naming only
`in__a` (the message is the Python `repr` of a one-element list) — not one
exception naming every missing key after scanning the whole query: the
`missing_keys` accumulator is re-created and checked inside the scan loop. -/
theorem C1_first_missing_key_only :
    get_query_data ⟨"\x7bin__a\x7d \x7bin__b\x7d", Option.none, some []⟩
      = .error (.listTemplate
          ("Missing template keys [" ++ sq ++ "in__a" ++ sq ++ "]")) := by
  rfl

/-- C2 counterexample: for the query of the claim, the returned SQL contains
`x IN ( :in__x_0, :in__x_1 )` — the binding names carry the whole template
key (passed as `legacy_key`), so the fragment `x IN ( :x_0, :x_1 )` does not
occur and the mapping binds `in__x_0`/`in__x_1`, not `x_0`/`x_1`. -/
theorem C2_counterexample :
    get_query_data ⟨"SELECT * FROM t WHERE x \x7bin__x\x7d", Option.none,
        some [("in__x", PyVal.seq false [.sc (.int 1), .sc (.int 2)])]⟩
      = .ok ("SELECT * FROM t WHERE x x IN ( :in__x_0, :in__x_1 ) ",
          [("in__x_0", PyVal.sc (.int 1)), ("in__x_1", PyVal.sc (.int 2))])
    ∧ ¬ ("x IN ( :x_0, :x_1 )".data <:+:
          "SELECT * FROM t WHERE x x IN ( :in__x_0, :in__x_1 ) ".data)
    ∧ alGet [("in__x_0", PyVal.sc (.int 1)), ("in__x_1", PyVal.sc (.int 2))] "x_0"
        = Option.none := by
  refine ⟨rfl, by decide, rfl⟩

/-- C2 amended: the assembly of the claim's query yields SQL containing
`x IN ( :in__x_0, :in__x_1 )` and the mapping
`\x7bin__x_0: 1, in__x_1: 2\x7d`. -/
theorem C2_amended_result :
    get_query_data ⟨"SELECT * FROM t WHERE x \x7bin__x\x7d", Option.none,
        some [("in__x", PyVal.seq false [.sc (.int 1), .sc (.int 2)])]⟩
      = .ok ("SELECT * FROM t WHERE x x IN ( :in__x_0, :in__x_1 ) ",
          [("in__x_0", PyVal.sc (.int 1)), ("in__x_1", PyVal.sc (.int 2))]) := by
  rfl

/-- C3 counterexample: when `query_params` already binds `in__x_0`, the value
returned for that name is the template-generated one (1), not the directly
supplied 99 — direct parameters are merged first and then overwritten. -/
theorem C3_counterexample :
    get_query_data ⟨"a \x7bin__x\x7d", some [("in__x_0", PyVal.sc (.int 99))],
        some [("in__x", PyVal.seq false [.sc (.int 1), .sc (.int 2)])]⟩
      = .ok ("a x IN ( :in__x_0, :in__x_1 ) ",
          [("in__x_0", PyVal.sc (.int 1)), ("in__x_1", PyVal.sc (.int 2))])
    ∧ alGet [("in__x_0", PyVal.sc (.int 1)), ("in__x_1", PyVal.sc (.int 2))]
        "in__x_0" ≠ some (PyVal.sc (.int 99)) := by
  refine ⟨rfl, by decide⟩

/-- C3 amended: template-generated bindings take precedence over directly
supplied ones, for every `QueryData` — `query_params` are merged first and
each template's bindings are applied afterwards, overwriting on collision.
Stated universally: for every query, every `template_params`, and any two
choices of `query_params` on which `get_query_data` succeeds, the returned
SQL is identical and, at every parameter name, either the two returned
mappings agree (every name a template expansion writes, which is therefore
independent of — takes precedence over — whatever `query_params` supplied
there) or each still equals its own directly seeded value (names no
template writes). -/
theorem C3_amended (query : String) (tp qp1 qp2 : Option Params)
    (sql1 sql2 : String) (ps1 ps2 : Params)
    (h1 : get_query_data ⟨query, qp1, tp⟩ = .ok (sql1, ps1))
    (h2 : get_query_data ⟨query, qp2, tp⟩ = .ok (sql2, ps2)) :
    sql1 = sql2 ∧ ∀ n, alGet ps1 n = alGet ps2 n
      ∨ (alGet ps1 n = alGet (initialParams qp1) n
        ∧ alGet ps2 n = alGet (initialParams qp2) n) := by
  revert h1 h2
  unfold get_query_data
  cases validate_keys_clean_query query tp with
  | error e =>
    intro h1 h2
    cases h1
  | ok qk =>
    obtain ⟨q1, ks⟩ := qk
    intro h1 h2
    exact substLoop_qp_independent tp ks q1
      (initialParams qp1) (initialParams qp2) (sql1, ps1) (sql2, ps2) h1 h2

/-- C3 witness: the amended statement applied to the counterexample's query,
once with the colliding `query_params` entry `in__x_0 = 99` and once with no
`query_params`; both runs return the template-generated mapping. -/
theorem C3_witness :
    ("a x IN ( :in__x_0, :in__x_1 ) " : String)
        = "a x IN ( :in__x_0, :in__x_1 ) "
    ∧ ∀ n, alGet [("in__x_0", PyVal.sc (.int 1)),
            ("in__x_1", PyVal.sc (.int 2))] n
          = alGet [("in__x_0", PyVal.sc (.int 1)),
            ("in__x_1", PyVal.sc (.int 2))] n
        ∨ (alGet [("in__x_0", PyVal.sc (.int 1)),
              ("in__x_1", PyVal.sc (.int 2))] n
            = alGet (initialParams (some [("in__x_0", PyVal.sc (.int 99))])) n
          ∧ alGet [("in__x_0", PyVal.sc (.int 1)),
              ("in__x_1", PyVal.sc (.int 2))] n
            = alGet (initialParams Option.none) n) :=
  C3_amended "a \x7bin__x\x7d"
    (some [("in__x", PyVal.seq false [.sc (.int 1), .sc (.int 2)])])
    (some [("in__x_0", PyVal.sc (.int 99))]) Option.none
    "a x IN ( :in__x_0, :in__x_1 ) " "a x IN ( :in__x_0, :in__x_1 ) "
    [("in__x_0", PyVal.sc (.int 1)), ("in__x_1", PyVal.sc (.int 2))]
    [("in__x_0", PyVal.sc (.int 1)), ("in__x_1", PyVal.sc (.int 2))]
    rfl rfl

/-- C4 counterexample: the keys `in__a.b` and `in__a_b` are distinct, yet
both generate the binding name `in__a_b_0` (the dot is rewritten to an
underscore), and assembling a query that references both leaves a single
(overwritten) entry in the mapping. -/
theorem C4_counterexample :
    (Templates.parameterize_inner_list "in__a.b"
        (PyVal.seq false [.sc (.int 1)])).2.map Prod.fst = ["in__a_b_0"]
    ∧ (Templates.parameterize_inner_list "in__a_b"
        (PyVal.seq false [.sc (.int 2)])).2.map Prod.fst = ["in__a_b_0"]
    ∧ get_query_data ⟨"\x7bin__a.b\x7d \x7bin__a_b\x7d", Option.none,
        some [("in__a.b", PyVal.seq false [.sc (.int 1)]),
              ("in__a_b", PyVal.seq false [.sc (.int 2)])]⟩
      = .ok (" a.b IN ( :in__a_b_0 )  a_b IN ( :in__a_b_0 ) ",
          [("in__a_b_0", PyVal.sc (.int 2))]) := by
  refine ⟨rfl, rfl, rfl⟩

/-- C4 amended: within one placeholder key the generated binding names are
pairwise distinct, and the names of two distinct (digit-free, as the
placeholder grammar guarantees) keys are disjoint provided the keys remain
distinct after rewriting dots to underscores — the proviso the
counterexample shows to be necessary. -/
theorem C4_amended (k1 k2 : String) (b1 b2 : Bool) (v1 v2 : List PyElem)
    (hd1 : ∀ c ∈ k1.data, c.isDigit = false)
    (hd2 : ∀ c ∈ k2.data, c.isDigit = false)
    (hne : dotToUnderscore k1 ≠ dotToUnderscore k2) :
    ((Templates.parameterize_inner_list k1 (.seq b1 v1)).2.map Prod.fst).Nodup
    ∧ ∀ n ∈ (Templates.parameterize_inner_list k1 (.seq b1 v1)).2.map Prod.fst,
        n ∉ (Templates.parameterize_inner_list k2 (.seq b2 v2)).2.map Prod.fst := by
  refine ⟨inner_names_nodup k1 b1 v1, ?_⟩
  intro n hn hn2
  rw [inner_names_factor] at hn hn2
  obtain ⟨i, _, hni⟩ := List.mem_map.mp hn
  obtain ⟨j, _, hnj⟩ := List.mem_map.mp hn2
  exact hne (genName_inj k1 k2 i j hd1 hd2 (hni.trans hnj.symm)).1

/-- C4 witness: the amended statement applied to the concrete keys `in__x`
and `in__y` with one-element values. -/
theorem C4_witness :
    ((∀ c ∈ "in__x".data, c.isDigit = false)
      ∧ (∀ c ∈ "in__y".data, c.isDigit = false)
      ∧ dotToUnderscore "in__x" ≠ dotToUnderscore "in__y")
    ∧ (((Templates.parameterize_inner_list "in__x"
          (.seq false [.sc (.int 1)])).2.map Prod.fst).Nodup
      ∧ ∀ n ∈ (Templates.parameterize_inner_list "in__x"
            (.seq false [.sc (.int 1)])).2.map Prod.fst,
          n ∉ (Templates.parameterize_inner_list "in__y"
            (.seq false [.sc (.int 2)])).2.map Prod.fst) :=
  ⟨⟨by decide, by decide, by decide⟩,
    C4_amended "in__x" "in__y" false false [.sc (.int 1)] [.sc (.int 2)]
      (by decide) (by decide) (by decide)⟩

/-- C5: a `values` placeholder whose key is present but maps to an empty
list passes validation untouched (the dead emptiness branch compares the
full key with the literal string `values`), and the failure instead comes
from the `values` handler during substitution, with a different, single-key
message — not the batch `Missing template keys` error the claim
describes. -/
theorem C5_empty_values_passes_validation :
    validate_keys_clean_query "\x7bvalues__t\x7d"
        (some [("values__t", PyVal.seq false [])])
      = .ok ("\x7bvalues__t\x7d", ["values__t"])
    ∧ get_query_data ⟨"\x7bvalues__t\x7d", Option.none,
        some [("values__t", PyVal.seq false [])]⟩
      = .error (.listTemplate "Must have values for t template") := by
  refine ⟨rfl, rfl⟩

/-- C6: for every column name and an empty values list, the `in` handler
returns the sentinel `1 <> 1` with no bindings, the `not_in` handler returns
`1 = 1` with no bindings, and the `values` handler raises the list-template
error even when called directly. -/
theorem C6_empty_input_policies (name : String) (lk : Option String) :
    Templates.in_column name (PyVal.seq false []) lk = .ok ("1 <> 1", Option.none)
    ∧ Templates.not_in_column name (PyVal.seq false []) lk
        = .ok ("1 = 1", Option.none)
    ∧ Templates.values name (PyVal.seq false []) lk
        = .error (.listTemplate
            ("Must have values for " ++ name ++ " template")) :=
  ⟨rfl, rfl, rfl⟩

/-- C8 counterexample: a lone non-string scalar is not normalized into a
one-element sequence — iterating it raises `TypeError`, both in the
parameterization step and through the `in` handler. -/
theorem C8_counterexample :
    Templates.parameterize_list "in__x" (PyVal.sc (.int 5)) = .error .typeError
    ∧ Templates.in_column "x" (PyVal.sc (.int 5)) (some "in__x")
        = .error .typeError := ⟨rfl, rfl⟩

/-- C8 amended: only a lone string is normalized into a one-element sequence;
for any string and any key not starting with `values`, the parameterization
step produces exactly one binding (named `key_0` after dot rewriting) and a
one-element parenthesized fragment. -/
theorem C8_amended (key : String) (s : String)
    (h : pyStartsWith key "values" = false) :
    Templates.parameterize_list key (PyVal.sc (.str s))
      = .ok ("( :" ++ (dotToUnderscore key ++ "_" ++ natToStr 0) ++ " )",
          [(dotToUnderscore key ++ "_" ++ natToStr 0, PyVal.sc (.str s))]) := by
  simp [Templates.parameterize_list, Templates.plAux, h,
    Templates.parameterize_inner_list, strJoin, PyElem.toVal]

/-- C8 witness: the amended statement at the key `in__x` and the string
`v`. -/
theorem C8_witness :
    pyStartsWith "in__x" "values" = false
    ∧ Templates.parameterize_list "in__x" (PyVal.sc (.str "v"))
      = .ok ("( :" ++ (dotToUnderscore "in__x" ++ "_" ++ natToStr 0) ++ " )",
          [(dotToUnderscore "in__x" ++ "_" ++ natToStr 0, PyVal.sc (.str "v"))]) :=
  ⟨by decide, C8_amended "in__x" "v" (by decide)⟩

/-- C9: `get_query_data` does not mutate its input: the statement-level
state-passing embedding returns the input `QueryData` unchanged, and its
result component is exactly `get_query_data` of the input. -/
theorem C9_no_mutation (d : QueryData) (r : (String × Params) × QueryData)
    (h : get_query_data_st d = .ok r) :
    r.2 = d ∧ get_query_data d = .ok r.1 := by
  revert h
  unfold get_query_data_st
  unfold get_query_data
  cases validate_keys_clean_query d.query d.template_params with
  | error e =>
    intro h
    cases h
  | ok qk =>
    obtain ⟨q1, ks⟩ := qk
    show (match substLoop d.template_params ks q1 (initialParams d.query_params) with
        | Except.error e => Except.error e
        | Except.ok r2 => Except.ok (r2, d)) = Except.ok r →
      r.2 = d
      ∧ substLoop d.template_params ks q1 (initialParams d.query_params)
          = Except.ok r.1
    cases substLoop d.template_params ks q1 (initialParams d.query_params) with
    | error e =>
      intro h
      cases h
    | ok res =>
      intro h
      cases h
      exact ⟨rfl, rfl⟩

/-- C9 witness: the frame theorem applied to a concrete `QueryData`. -/
theorem C9_witness :
    ((("SELECT 1", ([] : Params)), qdFrame) : (String × Params) × QueryData).2
        = qdFrame
    ∧ get_query_data qdFrame
        = .ok ((("SELECT 1", ([] : Params)), qdFrame) :
            (String × Params) × QueryData).1 :=
  C9_no_mutation qdFrame (("SELECT 1", []), qdFrame) rfl

/-- C10: a key whose placeholder occurs twice in the query is processed
twice by the substitution loop, but the second pass changes nothing — the
first pass already replaced every occurrence (so the braced key no longer
occurs) and re-merging the same bindings leaves the mapping unchanged — and
the merged mapping keeps pairwise-distinct binding names. -/
theorem C10_duplicate_placeholder (tp : Option Params) (k ltk col : String)
    (tmpl : String → PyVal → Option String → Except PyErr (String × Option Params))
    (v : PyVal) (tq : String) (d : Params)
    (ks : List String) (q : String) (p : Params)
    (hsplit : pySplit k "__" = [ltk, col])
    (htmpl : Templates.get_template ltk = some tmpl)
    (hv : tpLookup tp k = .ok v)
    (hrender : tmpl col v (some k) = .ok (tq, some d))
    (hdnd : (keysOf d).Nodup)
    (hpnd : (keysOf p).Nodup)
    (hnox : ¬ (("\x7b" ++ k ++ "\x7d").data <:+:
        (pyReplace q ("\x7b" ++ k ++ "\x7d") (" " ++ tq ++ " ")).data)) :
    substLoop tp (k :: k :: ks) q p = substLoop tp (k :: ks) q p
    ∧ (keysOf (alUpdate p d)).Nodup := by
  have hstep1 : substStep tp k q p
      = .ok (pyReplace q ("\x7b" ++ k ++ "\x7d") (" " ++ tq ++ " "),
          if d.isEmpty then p else alUpdate p d) := by
    simp [substStep, hsplit, htmpl, hv, hrender]
  have hq1 : pyReplace (pyReplace q ("\x7b" ++ k ++ "\x7d") (" " ++ tq ++ " "))
      ("\x7b" ++ k ++ "\x7d") (" " ++ tq ++ " ")
      = pyReplace q ("\x7b" ++ k ++ "\x7d") (" " ++ tq ++ " ") :=
    pyReplace_no_occurrence _ _ _ hnox
  have hstep2 : substStep tp k
      (pyReplace q ("\x7b" ++ k ++ "\x7d") (" " ++ tq ++ " "))
      (if d.isEmpty then p else alUpdate p d)
      = .ok (pyReplace q ("\x7b" ++ k ++ "\x7d") (" " ++ tq ++ " "),
          if d.isEmpty then p else alUpdate p d) := by
    by_cases hde : d.isEmpty
    · simp [substStep, hsplit, htmpl, hv, hrender, hde, hq1]
    · have hidem : alUpdate (alUpdate p d) d = alUpdate p d :=
        alUpdate_idem p d hpnd hdnd
      simp [substStep, hsplit, htmpl, hv, hrender, hde, hq1, hidem]
  refine ⟨?_, nodupKeys_alUpdate d p hpnd⟩
  show substLoop tp (k :: k :: ks) q p = substLoop tp (k :: ks) q p
  rw [show substLoop tp (k :: k :: ks) q p
      = (match substStep tp k q p with
        | Except.error e => Except.error e
        | Except.ok (q2, p2) => substLoop tp (k :: ks) q2 p2) from rfl]
  rw [show substLoop tp (k :: ks) q p
      = (match substStep tp k q p with
        | Except.error e => Except.error e
        | Except.ok (q2, p2) => substLoop tp ks q2 p2) from rfl]
  rw [hstep1]
  show substLoop tp (k :: ks)
      (pyReplace q ("\x7b" ++ k ++ "\x7d") (" " ++ tq ++ " "))
      (if d.isEmpty then p else alUpdate p d)
    = substLoop tp ks (pyReplace q ("\x7b" ++ k ++ "\x7d") (" " ++ tq ++ " "))
        (if d.isEmpty then p else alUpdate p d)
  rw [show substLoop tp (k :: ks)
        (pyReplace q ("\x7b" ++ k ++ "\x7d") (" " ++ tq ++ " "))
        (if d.isEmpty then p else alUpdate p d)
      = (match substStep tp k
          (pyReplace q ("\x7b" ++ k ++ "\x7d") (" " ++ tq ++ " "))
          (if d.isEmpty then p else alUpdate p d) with
        | Except.error e => Except.error e
        | Except.ok (q2, p2) => substLoop tp ks q2 p2) from rfl]
  rw [hstep2]

/-- C10 witness: the duplicate-placeholder theorem applied to the key
`in__x` occurring twice, with a one-element template value. -/
theorem C10_witness :
    (pySplit "in__x" "__" = ["in", "x"]
      ∧ Templates.get_template "in" = some Templates.in_column
      ∧ tpLookup (some [("in__x", PyVal.seq false [.sc (.int 1)])]) "in__x"
          = .ok (PyVal.seq false [.sc (.int 1)])
      ∧ Templates.in_column "x" (PyVal.seq false [.sc (.int 1)]) (some "in__x")
          = .ok ("x IN ( :in__x_0 )", some [("in__x_0", PyVal.sc (.int 1))]))
    ∧ (substLoop (some [("in__x", PyVal.seq false [.sc (.int 1)])])
          ["in__x", "in__x"] "\x7bin__x\x7dy\x7bin__x\x7d" []
        = substLoop (some [("in__x", PyVal.seq false [.sc (.int 1)])])
          ["in__x"] "\x7bin__x\x7dy\x7bin__x\x7d" []
      ∧ (keysOf (alUpdate ([] : Params)
          [("in__x_0", PyVal.sc (.int 1))])).Nodup) :=
  ⟨⟨rfl, rfl, rfl, rfl⟩,
    C10_duplicate_placeholder
      (some [("in__x", PyVal.seq false [.sc (.int 1)])]) "in__x" "in" "x"
      Templates.in_column (PyVal.seq false [.sc (.int 1)]) "x IN ( :in__x_0 )"
      [("in__x_0", PyVal.sc (.int 1))] [] "\x7bin__x\x7dy\x7bin__x\x7d" []
      rfl rfl rfl rfl (by decide) (by decide) (by decide)⟩

/-- C7: the combining mapper equals partition-then-fold — one record per
distinct identity, in first-seen order, each folded from exactly its
partition's rows in row order — and folding the same row twice doubles list
and CSV contents while the set field deduplicates. -/
theorem C7_combining_partition :
    (∀ (s : MapperSchema) (rows : List Row),
        mapRecords s rows = (firstSeenIds s rows).map (partitionFold s rows))
    ∧ mapRecords sDouble [rowDouble, rowDouble] = [recDouble] :=
  ⟨mapRecords_partition, by rfl⟩

end DySql

